import Mathlib

/-!
# Verification of the Walla schedule-extraction pipeline

Shallow embedding of the extraction/reconciliation pipeline of the
walla-playwright-scraper repository: the plain-text day-scoped parser
(`parseFromPlainText`), the DOM row parser (`domParseRow` / `domParse`),
the shared deduplicator, the visible-date resolver (`yearFromISO`,
`headingDateISO`) and the strategy coordinator of the
`capture-schedule-text` handler.

JavaScript strings are modelled as Lean `String` (lists of characters);
the concrete regular expressions of the source are modelled by
executable character-list matchers with the same matching semantics
(leftmost match, greedy quantifiers with the backtracking the concrete
patterns allow).  JavaScript `null` is `Option.none`; a thrown exception
is modelled by an `Option.none` result of the whole function.
-/

namespace Walla

/-! ## Character classes (as used by the source's regexes) -/

/-- JS whitespace class `\s` restricted to the ASCII range (the inputs are
ASCII page text). -/
def jsSpace (c : Char) : Bool :=
  c = ' ' || c = '\t' || c = '\n' || c = '\r' || c = '\x0b' || c = '\x0c'

def isDigitC (c : Char) : Bool := '0' ≤ c && c ≤ '9'

def isUpperC (c : Char) : Bool := 'A' ≤ c && c ≤ 'Z'

def isLowerC (c : Char) : Bool := 'a' ≤ c && c ≤ 'z'

def isAlphaC (c : Char) : Bool := isUpperC c || isLowerC c

/-- Regex word character `\w` = `[A-Za-z0-9_]`, used for `\b` boundaries. -/
def isWordC (c : Char) : Bool := isAlphaC c || isDigitC c || c = '_'

/-! ## String helpers mirroring the JS helpers of the source -/

/-- `String.prototype.trim`. -/
def trimChars (l : List Char) : List Char :=
  ((l.dropWhile jsSpace).reverse.dropWhile jsSpace).reverse

def jsTrim (s : String) : String := String.mk (trimChars s.data)

/-- One step of `replace(/\s+/g, ' ')`: collapse maximal whitespace runs
into a single space. -/
def collapseWS : List Char → List Char
  | [] => []
  | [c] => if jsSpace c then [' '] else [c]
  | c :: d :: rest =>
    if jsSpace c then
      if jsSpace d then collapseWS (d :: rest) else ' ' :: collapseWS (d :: rest)
    else c :: collapseWS (d :: rest)

/-- `norm(s) = s.replace(/\s+/g,' ').trim()` of the source. -/
def normStr (s : String) : String := String.mk (trimChars (collapseWS s.data))

def strUpper (s : String) : String := String.mk (s.data.map Char.toUpper)

def strLower (s : String) : String := String.mk (s.data.map Char.toLower)

/-- `text.split(/\r?\n/)`: split at `\r\n` or `\n`. -/
def splitLinesAux : List Char → List Char → List (List Char)
  | acc, [] => [acc.reverse]
  | acc, '\r' :: '\n' :: rest => acc.reverse :: splitLinesAux [] rest
  | acc, '\n' :: rest => acc.reverse :: splitLinesAux [] rest
  | acc, c :: rest => splitLinesAux (c :: acc) rest

def splitLinesJS (s : String) : List String :=
  (splitLinesAux [] s.data).map String.mk

/-- Case-sensitive literal prefix: consume `pat` from `l`, return the rest. -/
def stripExact : List Char → List Char → Option (List Char)
  | [], l => some l
  | _ :: _, [] => none
  | p :: ps, c :: cs => if c = p then stripExact ps cs else none

/-- Case-insensitive literal prefix (the `i` flag on a literal). -/
def stripCI : List Char → List Char → Option (List Char)
  | [], l => some l
  | _ :: _, [] => none
  | p :: ps, c :: cs => if c.toLower = p.toLower then stripCI ps cs else none

/-- `hay.includes(needle)` (case-sensitive substring test). -/
def hasSubAt (needle hay : List Char) : Bool := (stripExact needle hay).isSome

def hasSub (needle : List Char) : List Char → Bool
  | [] => hasSubAt needle []
  | c :: rest => hasSubAt needle (c :: rest) || hasSub needle rest

def strIncludes (hay needle : String) : Bool := hasSub needle.data hay.data

/-- Case-insensitive substring test (`/lit/i.test(s)`). -/
def hasSubCIAt (needle hay : List Char) : Bool := (stripCI needle hay).isSome

def hasSubCI (needle : List Char) : List Char → Bool
  | [] => hasSubCIAt needle []
  | c :: rest => hasSubCIAt needle (c :: rest) || hasSubCI needle rest

def natOfDigits (l : List Char) : Nat :=
  l.foldl (fun n c => n * 10 + (c.toNat - '0'.toNat)) 0

/-! ## The time regex

The source uses `/^([0-1]?\d:[0-5]\d)\s*([AP]M)$/i` (plain-text parser,
anchored) and `/\b([0-1]?\d:[0-5]\d)\s*([AP]M)\b/i` (DOM parser,
searched).  `hm5` / `hm4` are the two backtracking alternatives of the
first capture group `[0-1]?\d:[0-5]\d` (with / without the optional
leading `[0-1]`), tried greedily in that order. -/

def hm5 : List Char → Option (List Char × List Char)
  | a :: b :: k :: c :: d :: rest =>
    if k = ':' && (a = '0' || a = '1') && isDigitC b && ('0' ≤ c && c ≤ '5') && isDigitC d then
      some ([a, b, k, c, d], rest)
    else none
  | _ => none

def hm4 : List Char → Option (List Char × List Char)
  | a :: k :: b :: c :: rest =>
    if k = ':' && isDigitC a && ('0' ≤ b && b ≤ '5') && isDigitC c then
      some ([a, k, b, c], rest)
    else none
  | _ => none

def hmParse (l : List Char) : Option (List Char × List Char) :=
  match hm5 l with
  | some r => some r
  | none => hm4 l

/-- `[AP]M` with the `i` flag (written out so case analysis yields the
concrete characters). -/
def isAPC (c : Char) : Bool := c = 'A' || c = 'a' || c = 'P' || c = 'p'

def isMC (c : Char) : Bool := c = 'M' || c = 'm'

/-- Anchored `TIME_RE` match, returning the two capture groups. -/
def timeAnchoredMatch (l : List Char) : Option (String × String) :=
  match hmParse l with
  | none => none
  | some (g1, rest) =>
    match rest.dropWhile jsSpace with
    | [p, m] =>
      if isAPC p && isMC m then some (String.mk g1, String.mk [p, m]) else none
    | _ => none

/-- One attempt of the searched `TIME_RE` at the head of `l` (the leading
`\b` is checked by the caller; the trailing `\b` here). -/
def timeAt (l : List Char) : Option (String × String) :=
  match hmParse l with
  | none => none
  | some (g1, rest) =>
    match rest.dropWhile jsSpace with
    | p :: m :: rest3 =>
      if isAPC p && isMC m && (match rest3 with | [] => true | c :: _ => !isWordC c) then
        some (String.mk g1, String.mk [p, m])
      else none
    | _ => none

/-- Leftmost match of the searched `TIME_RE`; `prevWord` tracks whether
the previous character was a word character (for `\b`). -/
def timeSearchAux : Bool → List Char → Option (String × String)
  | _, [] => none
  | prevWord, c :: rest =>
    match (if prevWord then none else timeAt (c :: rest)) with
    | some r => some r
    | none => timeSearchAux (isWordC c) rest

def timeSearch (l : List Char) : Option (String × String) := timeSearchAux false l

def timeTestB (s : String) : Bool := (timeSearch s.data).isSome

/-! ## The spots regexes: `/^(\d+)\s*SPOTS?$/i` and `/\b(\d+)\s*SPOTS?\b/i` -/

/-- Anchored `SPOTS_RE` of the plain-text parser; returns `parseInt` of
the captured digit run. -/
def spotsAnchored (l : List Char) : Option Nat :=
  let ds := l.takeWhile isDigitC
  if ds.isEmpty then none
  else
    match stripCI ['s', 'p', 'o', 't'] ((l.drop ds.length).dropWhile jsSpace) with
    | none => none
    | some r =>
      match r with
      | [] => some (natOfDigits ds)
      | [c] => if c = 's' || c = 'S' then some (natOfDigits ds) else none
      | _ => none

/-- One attempt of the searched `SPOTS_RE` at the head of `l`
(trailing `\b` handled, including the backtrack over the optional `S`). -/
def spotsAt (l : List Char) : Option Nat :=
  let ds := l.takeWhile isDigitC
  if ds.isEmpty then none
  else
    match stripCI ['s', 'p', 'o', 't'] ((l.drop ds.length).dropWhile jsSpace) with
    | none => none
    | some r =>
      match r with
      | [] => some (natOfDigits ds)
      | c :: r2 =>
        if c = 's' || c = 'S' then
          match r2 with
          | [] => some (natOfDigits ds)
          | d :: _ => if isWordC d then none else some (natOfDigits ds)
        else if isWordC c then none else some (natOfDigits ds)

def spotsSearchAux : Bool → List Char → Option Nat
  | _, [] => none
  | prevWord, c :: rest =>
    match (if prevWord then none else spotsAt (c :: rest)) with
    | some r => some r
    | none => spotsSearchAux (isWordC c) rest

def spotsSearch (l : List Char) : Option Nat := spotsSearchAux false l

/-! ## Price: `PRICE_RE = /(?:Drop-?in:?\s*)?\$([0-9]+(?:\.[0-9]{2})?)/i`

The optional `Drop-in` prefix contains no `$` and hence never changes
which `$` the leftmost match captures, so the capture group is the one at
the first `$` that is immediately followed by a digit. -/

def priceAt : List Char → Option String
  | '$' :: rest =>
    let ds := rest.takeWhile isDigitC
    if ds.isEmpty then none
    else
      match rest.drop ds.length with
      | '.' :: a :: b :: _ =>
        if isDigitC a && isDigitC b then some (String.mk (ds ++ ['.', a, b]))
        else some (String.mk ds)
      | _ => some (String.mk ds)
  | _ => none

def priceSearch : List Char → Option String
  | [] => none
  | c :: rest =>
    match priceAt (c :: rest) with
    | some r => some r
    | none => priceSearch rest

/-- `parseFloat` of a capture of `PRICE_RE` (digits, optionally `.` and
two digits): exact decimal value. -/
def decToRat (s : String) : ℚ :=
  let ip := s.data.takeWhile isDigitC
  match s.data.drop ip.length with
  | '.' :: fr => (natOfDigits ip : ℚ) + (natOfDigits fr : ℚ) / 100
  | _ => (natOfDigits ip : ℚ)

/-- `DROPIN_RE = /^Drop-?in:\s*\$\d[\d.,]*/i` as a test (the trailing
`[\d.,]*` always matches). -/
def dropinTest (l : List Char) : Bool :=
  match stripCI ['d', 'r', 'o', 'p'] l with
  | none => false
  | some r =>
    let r := match r with | '-' :: r2 => r2 | _ => r
    match stripCI ['i', 'n', ':'] r with
    | none => false
    | some r2 =>
      match r2.dropWhile jsSpace with
      | '$' :: d :: _ => isDigitC d
      | _ => false

/-- `/^Drop-?in:/i` used by the DOM class-name fallback. -/
def dropinColonTest (l : List Char) : Bool :=
  match stripCI ['d', 'r', 'o', 'p'] l with
  | none => false
  | some r =>
    let r := match r with | '-' :: r2 => r2 | _ => r
    (stripCI ['i', 'n', ':'] r).isSome

/-! ## Instructor: `/^w\/\s*([A-Za-z][A-Za-z .'-]+)/i` (anchored in the
text parser, searched in the DOM parser); the capture is `.trim()`ed. -/

def instrClass (c : Char) : Bool :=
  isAlphaC c || c = ' ' || c = '.' || c = '\'' || c = '-'

def instrAt : List Char → Option String
  | w :: '/' :: rest =>
    if w = 'w' || w = 'W' then
      match rest.dropWhile jsSpace with
      | c :: r2 =>
        if isAlphaC c then
          let run := r2.takeWhile instrClass
          if run.isEmpty then none else some (String.mk (trimChars (c :: run)))
        else none
      | [] => none
    else none
  | _ => none

def instrSearch : List Char → Option String
  | [] => none
  | c :: rest =>
    match instrAt (c :: rest) with
    | some r => some r
    | none => instrSearch rest

/-! ## Status words -/

/-- `/^Waitlist$/i`. -/
def waitlistLineB (s : String) : Bool := strLower s = "waitlist"

/-- `/^Sold\s*Out$/i`. -/
def soldOutLineB (s : String) : Bool :=
  match stripCI ['s', 'o', 'l', 'd'] s.data with
  | none => false
  | some r =>
    match stripCI ['o', 'u', 't'] (r.dropWhile jsSpace) with
    | some [] => true
    | _ => false

/-- `/^Full$/i`. -/
def fullLineB (s : String) : Bool := strLower s = "full"

/-- `/^Book$/i`. -/
def bookLineB (s : String) : Bool := strLower s = "book"

/-- `/^EDT$/i`. -/
def edtLineB (s : String) : Bool := strLower s = "edt"

/-- `sold\s*out` searched case-insensitively. -/
def soldOutAt (l : List Char) : Bool :=
  match stripCI ['s', 'o', 'l', 'd'] l with
  | none => false
  | some r => hasSubCIAt ['o', 'u', 't'] (r.dropWhile jsSpace)

def soldOutSub : List Char → Bool
  | [] => soldOutAt []
  | c :: rest => soldOutAt (c :: rest) || soldOutSub rest

/-- `/book|waitlist|sold\s*out|full/i.test`, the DOM `btnText` filter. -/
def btnWordB (s : String) : Bool :=
  hasSubCI ['b', 'o', 'o', 'k'] s.data ||
  hasSubCI ['w', 'a', 'i', 't', 'l', 'i', 's', 't'] s.data ||
  soldOutSub s.data ||
  hasSubCI ['f', 'u', 'l', 'l'] s.data

/-- `/waitlist/i.test`. -/
def waitlistSubB (s : String) : Bool :=
  hasSubCI ['w', 'a', 'i', 't', 'l', 'i', 's', 't'] s.data

/-- `/sold\s*out|^full$/i.test`, the DOM sold-out branch. -/
def soldOutBtnB (s : String) : Bool := soldOutSub s.data || strLower s = "full"

/-- `/book/i.test`. -/
def bookSubB (s : String) : Bool := hasSubCI ['b', 'o', 'o', 'k'] s.data

/-! ## Generic day-header regexes used for section ends -/

def dayNamesUpper : List (List Char) :=
  ["SUNDAY".data, "MONDAY".data, "TUESDAY".data, "WEDNESDAY".data,
   "THURSDAY".data, "FRIDAY".data, "SATURDAY".data]

/-- `/^(SUNDAY|MONDAY|TUESDAY|WEDNESDAY|THURSDAY|FRIDAY|SATURDAY),\s+[A-Z]+\s+\d{1,2}$/`. -/
def upperHeaderTest (l : List Char) : Bool :=
  dayNamesUpper.any fun dn =>
    match stripExact dn l with
    | none => false
    | some r =>
      match r with
      | ',' :: r2 =>
        let sp := r2.takeWhile jsSpace
        if sp.isEmpty then false
        else
          let r3 := r2.drop sp.length
          let up := r3.takeWhile isUpperC
          if up.isEmpty then false
          else
            let r4 := r3.drop up.length
            let sp2 := r4.takeWhile jsSpace
            if sp2.isEmpty then false
            else
              let r5 := r4.drop sp2.length
              let dg := r5.takeWhile isDigitC
              (dg.length = 1 || dg.length = 2) && (r5.drop dg.length).isEmpty
      | _ => false

/-- `/^[A-Z][a-z]+,\s+[A-Z][a-z]+\s+\d{1,2}$/`. -/
def capHeaderTest (l : List Char) : Bool :=
  match l with
  | c :: rest =>
    if isUpperC c then
      let lo := rest.takeWhile isLowerC
      if lo.isEmpty then false
      else
        match rest.drop lo.length with
        | ',' :: r2 =>
          let sp := r2.takeWhile jsSpace
          if sp.isEmpty then false
          else
            match r2.drop sp.length with
            | c2 :: r3 =>
              if isUpperC c2 then
                let lo2 := r3.takeWhile isLowerC
                if lo2.isEmpty then false
                else
                  let r4 := r3.drop lo2.length
                  let sp2 := r4.takeWhile jsSpace
                  if sp2.isEmpty then false
                  else
                    let r5 := r4.drop sp2.length
                    let dg := r5.takeWhile isDigitC
                    (dg.length = 1 || dg.length = 2) && (r5.drop dg.length).isEmpty
              else false
            | [] => false
        | _ => false
    else false
  | [] => false

/-! ## Data model -/

/-- Status of a schedule entry (`'open' | 'full' | 'waitlist' | 'unknown'`
in the source; `open` is a Lean keyword, hence `open_`). -/
inductive Status where
  | open_
  | full
  | waitlist
  | unknown
deriving DecidableEq, Repr

/-- One canonical schedule record, the per-entry external contract. -/
structure ScheduleEntry where
  date : String
  time : String
  class_name : String
  instructor : String
  status : Status
  open_spots : Option Nat
  price : Option ℚ
  price_text : Option String
deriving DecidableEq, Repr

/-- The text parser's in-progress entry (`cur` in the source). -/
structure Cur where
  time : String
  class_name : String
  instructor : String
  status : Status
  open_spots : Option Nat
  price : Option ℚ
  price_text : Option String
deriving DecidableEq, Repr

/-! ## Calendar arithmetic for `new Date(iso + 'T12:00:00Z')`

A well-formed ISO date string `YYYY-MM-DD` (in-range month and day)
parses to its components; anything else makes the JS `Date` invalid, and
the weekday/month lookups of the parser then throw (`undefined`
weekday name) — modelled as `none`. -/

def isLeap (y : Nat) : Bool := (y % 4 = 0 && y % 100 ≠ 0) || y % 400 = 0

def daysInMonth (y m : Nat) : Nat :=
  if m = 2 then (if isLeap y then 29 else 28)
  else if m = 4 || m = 6 || m = 9 || m = 11 then 30
  else 31

def isoToYMD (iso : String) : Option (Nat × Nat × Nat) :=
  match iso.data with
  | [y1, y2, y3, y4, '-', m1, m2, '-', d1, d2] =>
    if isDigitC y1 && isDigitC y2 && isDigitC y3 && isDigitC y4 &&
       isDigitC m1 && isDigitC m2 && isDigitC d1 && isDigitC d2 then
      let y := natOfDigits [y1, y2, y3, y4]
      let m := natOfDigits [m1, m2]
      let d := natOfDigits [d1, d2]
      if 1 ≤ m && m ≤ 12 && 1 ≤ d && d ≤ daysInMonth y m then some (y, m, d)
      else none
    else none
  | _ => none

/-- `getUTCDay()`: 0 = Sunday.  Zeller's congruence, computed on `y + 400`
(the Gregorian weekday cycle has period 400 years) so that the
January/February shift never underflows `Nat`. -/
def dayOfWeekJS (y m d : Nat) : Nat :=
  let y := y + 400
  let m' := if m ≤ 2 then m + 12 else m
  let y' := if m ≤ 2 then y - 1 else y
  let K := y' % 100
  let J := y' / 100
  let h := (d + 13 * (m' + 1) / 5 + K + K / 4 + J / 4 + 5 * J) % 7
  (h + 6) % 7

def dowLongNames : List String :=
  ["Sunday", "Monday", "Tuesday", "Wednesday", "Thursday", "Friday", "Saturday"]

def monLongNames : List String :=
  ["January", "February", "March", "April", "May", "June", "July",
   "August", "September", "October", "November", "December"]

def monShortNames : List String :=
  ["Jan", "Feb", "Mar", "Apr", "May", "Jun", "Jul", "Aug", "Sep", "Oct", "Nov", "Dec"]

/-- The three day-header variants the plain-text segmenter searches for:
`headerUpper`, `headerCap` and `tabShort` of the source. -/
def headerVariantsOf (y m d : Nat) : String × String × String :=
  let dowLong := dowLongNames.getD (dayOfWeekJS y m d) ""
  let monLong := monLongNames.getD (m - 1) ""
  let monShort := monShortNames.getD (m - 1) ""
  (strUpper dowLong ++ ", " ++ strUpper monLong ++ " " ++ toString d,
   dowLong ++ ", " ++ monLong ++ " " ++ toString d,
   monShort ++ " " ++ toString d)

/-! ## Plain-text day-scoped parser (`parseFromPlainText`) -/

/-- `Array.prototype.findIndex` (as `Option`; the source maps a negative
result to `0`). -/
def findIdxJS (p : α → Bool) : List α → Option Nat
  | [] => none
  | x :: xs => if p x then some 0 else (findIdxJS p xs).map (· + 1)

/-- `text.split(/\r?\n/).map(s => s.trim()).filter(Boolean)`. -/
def textLines (text : String) : List String :=
  ((splitLinesJS text).map jsTrim).filter (fun s => !(s = ""))

/-- A line contains one of the three target-day header variants
(after `norm`). -/
def lineHasVariant (v : String × String × String) (l : String) : Bool :=
  let t := normStr l
  strIncludes t v.1 || strIncludes t v.2.1 || strIncludes t v.2.2

/-- Section start: first line containing a variant, else `0`. -/
def sectionStartIdx (v : String × String × String) (lines : List String) : Nat :=
  match findIdxJS (lineHasVariant v) lines with
  | some i => i
  | none => 0

/-- A line that looks like a generic day header (either case), ending the
section. -/
def genericHeaderLine (l : String) : Bool :=
  let t := normStr l
  upperHeaderTest t.data || capHeaderTest t.data

/-- Section end: next generic day-header line after the start, else the
end of the text. -/
def sectionEndIdx (lines : List String) (startIdx : Nat) : Nat :=
  match findIdxJS genericHeaderLine (lines.drop (startIdx + 1)) with
  | some j => startIdx + 1 + j
  | none => lines.length

/-- `lines.slice(startIdx, endIdx)`. -/
def sectionOf (v : String × String × String) (lines : List String) : List String :=
  let s := sectionStartIdx v lines
  (lines.drop s).take (sectionEndIdx lines s - s)

/-- The `IGNORE` set of known boilerplate lines. -/
def IGNORE : List String :=
  ["EDT", "In-Person", "Book", "map", "Log In", "Daily", "Weekly", "List",
   "Filter by", "Type", "Location", "Instructor", "Name", "Category", "All",
   "The Pearl", "The Pearl Pilates Haven"]

def initCur (time : String) : Cur :=
  { time := time, class_name := "", instructor := "", status := .unknown,
    open_spots := none, price := none, price_text := none }

def curEntry (iso : String) (c : Cur) : ScheduleEntry :=
  { date := iso, time := c.time, class_name := c.class_name,
    instructor := c.instructor, status := c.status,
    open_spots := c.open_spots, price := c.price, price_text := c.price_text }

/-- `pushCur()`: emit the in-progress entry if it has a time and a name
or a resolved status. -/
def pushCur (iso : String) (rows : List ScheduleEntry) : Option Cur → List ScheduleEntry
  | none => rows
  | some c =>
    if c.time ≠ "" ∧ (c.class_name ≠ "" ∨ c.status ≠ .unknown) then
      rows ++ [curEntry iso c]
    else rows

/-- The price rule of the line scan: capture a price but keep scanning
the other signals on the same line. -/
def applyPrice (t : String) (cur0 : Cur) : Cur :=
  match priceSearch t.data with
  | some p => { cur0 with price := some (decToRat p), price_text := some ("$" ++ p) }
  | none => cur0

/-- The remaining ordered rule chain of the line scan, applied to the
in-progress entry (first match wins; a line consumed by an earlier rule
never reaches a later one). -/
def applyRuleChain (t : String) (cur : Cur) : Cur :=
  if IGNORE.contains t then cur
  else if dropinTest t.data then cur
  else
    match instrAt t.data with
    | some nm => { cur with instructor := nm }
    | none =>
      if waitlistLineB t then { cur with status := .waitlist, open_spots := some 0 }
      else if soldOutLineB t || fullLineB t then
        { cur with status := .full, open_spots := some 0 }
      else
        match spotsAnchored t.data with
        | some n =>
          { cur with open_spots := some n,
                     status := if 0 < n then .open_ else .full }
        | none =>
          if bookLineB t then
            (if cur.open_spots = none then { cur with status := .open_ } else cur)
          else if cur.class_name = "" ∧ 3 ≤ t.length ∧ dropinTest t.data = false then
            { cur with class_name := t }
          else cur

/-- One iteration of the line scan of `parseFromPlainText`: a standalone
time line finalizes the previous entry and starts a new one; any other
line feeds the rule chain of the open entry (or is skipped when no
entry is open). -/
def stepLine (iso : String) (acc : List ScheduleEntry × Option Cur) (raw : String) :
    List ScheduleEntry × Option Cur :=
  let t := normStr raw
  match timeAnchoredMatch t.data with
  | some (g1, g2) =>
    (pushCur iso acc.1 acc.2, some (initCur (g1 ++ " " ++ strUpper g2)))
  | none =>
    match acc.2 with
    | none => acc
    | some cur0 => (acc.1, some (applyRuleChain t (applyPrice t cur0)))

def scanLines (iso : String) (rows : List ScheduleEntry) (cur : Option Cur) :
    List String → List ScheduleEntry
  | [] => pushCur iso rows cur
  | l :: rest =>
    let st := stepLine iso (rows, cur) l
    scanLines iso st.1 st.2 rest

def scanSection (iso : String) (section_ : List String) : List ScheduleEntry :=
  scanLines iso [] none section_

/-! ## Deduplication, keyed by `date|time|class_name` -/

def dedupKey (e : ScheduleEntry) : String :=
  e.date ++ "|" ++ e.time ++ "|" ++ e.class_name

def dedupGo (seen : List String) : List ScheduleEntry → List ScheduleEntry
  | [] => []
  | e :: rest =>
    if seen.contains (dedupKey e) then dedupGo seen rest
    else e :: dedupGo (dedupKey e :: seen) rest

def dedupEntries (l : List ScheduleEntry) : List ScheduleEntry := dedupGo [] l

/-- `parseFromPlainText(text, iso)`.  `none` models the `TypeError`
thrown when `iso` is not a well-formed date (the weekday name lookup
yields `undefined`); the empty-text guard fires before that. -/
def parseFromPlainText (text : String) (iso : String) : Option (List ScheduleEntry) :=
  if text = "" then some []
  else
    match isoToYMD iso with
    | none => none
    | some (y, m, d) =>
      let lines := textLines text
      let v := headerVariantsOf y m d
      some (dedupEntries (scanSection iso (sectionOf v lines)))

/-! ## DOM strategy (`domParse` inside the `capture-schedule-text` handler)

The content provider (the browser frame) supplies per candidate row its
flattened `innerText`, the `innerText` of the first
`.class-title,[data-testid="class-name"],a,h3,h4,[role=heading]`
descendant (if any), and the `innerText` of every `span, div, button`
descendant.  Those three projections are the only DOM accesses of the
row parser, so a row is modelled by them. -/

structure DomRow where
  text : String
  title : Option String
  badges : List String
deriving DecidableEq, Repr

/-- Badge texts, each `.trim()`ed as in the source's `map`. -/
def rowBadges (row : DomRow) : List String := row.badges.map jsTrim

/-- The first badge matching `SPOTS_RE`, parsed (`parseInt(m[1], 10)`). -/
def spotsLabelNat (row : DomRow) : Option Nat :=
  ((rowBadges row).find? fun s => (spotsSearch s.data).isSome).map
    fun lbl => (spotsSearch lbl.data).getD 0

/-- `t.split('\n')` (plain string split at newline characters). -/
def splitNLAux : List Char → List Char → List (List Char)
  | acc, [] => [acc.reverse]
  | acc, '\n' :: rest => acc.reverse :: splitNLAux [] rest
  | acc, c :: rest => splitNLAux (c :: acc) rest

def splitNL (s : String) : List String := (splitNLAux [] s.data).map String.mk

/-- The DOM class-name fallback over the row's lines. -/
def domClassNameFromLines (t : String) : String :=
  (((splitNL t).map jsTrim).filter (fun s => !(s = "")) |>.find? fun p =>
      !timeTestB p && !dropinColonTest p.data && decide (2 < p.length) && !edtLineB p).getD ""

/-- The DOM status resolution (`open_spots`/`status` block of the row
loop): the spots badge fixes a count and a provisional status, then the
waitlist / sold-out / book action text refines it. -/
def domStatusSpots (row : DomRow) (t btnText : String) : Status × Option Nat :=
  let st0 : Status × Option Nat :=
    match spotsLabelNat row with
    | some n => (if 0 < n then .open_ else .full, some n)
    | none => (.unknown, none)
  if waitlistSubB btnText || waitlistSubB t then
    (.waitlist, if st0.2 = none then some 0 else st0.2)
  else if soldOutBtnB btnText then
    (.full, if st0.2 = none then some 0 else st0.2)
  else if bookSubB btnText && st0.2 = none then (.open_, none)
  else st0

/-- One row of the DOM strategy (the body of the `for (const row of cands)`
loop); `none` when the row has no time token and is skipped. -/
def domParseRow (iso : String) (row : DomRow) : Option ScheduleEntry :=
  let t := jsTrim row.text
  match timeSearch t.data with
  | none => none
  | some (g1, g2) =>
    let time := g1 ++ " " ++ strUpper g2
    let cn0 := jsTrim ((row.title).getD "")
    let class_name := if cn0 = "" then domClassNameFromLines t else cn0
    let instructor := (instrSearch t.data).getD ""
    let badges := rowBadges row
    let btnText := (badges.find? btnWordB).getD ""
    let priceCap :=
      match priceSearch t.data with
      | some p => some p
      | none => (badges.filterMap fun (b : String) => priceSearch b.data).head?
    let res := domStatusSpots row t btnText
    some { date := iso, time := time, class_name := class_name,
           instructor := instructor, status := res.1, open_spots := res.2,
           price := priceCap.map decToRat,
           price_text := priceCap.map fun p => "$" ++ p }

/-- The whole DOM strategy: candidate filter, per-row parse, dedup. -/
def domParse (iso : String) (rows : List DomRow) : List ScheduleEntry :=
  dedupEntries ((rows.filter fun r => !(jsTrim r.text = "")).filterMap (domParseRow iso))

/-! ## Visible-date resolution -/

/-- `Number((iso || '').slice(0, 4))` as a year candidate: JS `Number`
is modelled on digit prefixes, the only shape `clampISO` can produce
(the empty slice gives `Number('') = 0`, below the plausibility range,
hence equivalent to `none` here). -/
def yearDigits (iso : String) : Option Nat :=
  let pre := iso.data.take 4
  if pre.length ≠ 0 && pre.all isDigitC then some (natOfDigits pre) else none

/-- `yearFromISO(iso)`: the year of the requested date when its 4-char
prefix is a number in `[1900, 3000]`, else the current year in the venue
timezone (`America/New_York`), supplied as `nowYearNY` (the external
clock). -/
def yearFromISO (iso : String) (nowYearNY : Nat) : Nat :=
  match yearDigits iso with
  | some y => if 1900 ≤ y && y ≤ 3000 then y else nowYearNY
  | none => nowYearNY

/-- `String(n).padStart(2, '0')` for month/day numbers. -/
def pad2 (n : Nat) : String := if n < 10 then "0" ++ toString n else toString n

def MONTHS : List (String × Nat) :=
  [("JANUARY", 1), ("FEBRUARY", 2), ("MARCH", 3), ("APRIL", 4), ("MAY", 5),
   ("JUNE", 6), ("JULY", 7), ("AUGUST", 8), ("SEPTEMBER", 9), ("OCTOBER", 10),
   ("NOVEMBER", 11), ("DECEMBER", 12)]

/-- The weekday alternation
`(?:SUNDAY|MONDAY|TUESDAY|WEDNESDAY|THURSDAY|FRIDAY|SATURDAY)` with the
`i` flag: strip whichever name matches. -/
def weekdayCI (l : List Char) : Option (List Char) :=
  match dayNamesUpper.filterMap (fun dn => stripCI dn l) with
  | r :: _ => some r
  | [] => none

/-- The heading pattern
`/^(?:SUNDAY|...|SATURDAY),?\s+([A-Z]+)\s+(\d{1,2})$/i`, returning the
captured month-name and day when it matches. -/
def headingDayMatch (l : List Char) : Option (List Char × Nat) :=
  match weekdayCI l with
  | none => none
  | some r =>
    let r := match r with | ',' :: r2 => r2 | _ => r
    let sp := r.takeWhile jsSpace
    if sp.isEmpty then none
    else
      let r2 := r.drop sp.length
      let mo := r2.takeWhile isAlphaC
      if mo.isEmpty then none
      else
        let r3 := r2.drop mo.length
        let sp2 := r3.takeWhile jsSpace
        if sp2.isEmpty then none
        else
          let r4 := r3.drop sp2.length
          let dg := r4.takeWhile isDigitC
          if (dg.length = 1 || dg.length = 2) && (r4.drop dg.length).isEmpty then
            some (mo, natOfDigits dg)
          else none

/-- The heading branch of `extractVisibleDateISO`, for one normalized
heading text: month-name lookup, day range check, `${year}-${mm}-${dd}`. -/
def headingDateISO (year : Nat) (t : String) : Option String :=
  match headingDayMatch (normStr t).data with
  | none => none
  | some (mo, day) =>
    match (MONTHS.find? fun p => p.1 = strUpper (String.mk mo)).map Prod.snd with
    | some month =>
      if 1 ≤ day && day ≤ 31 then
        some (toString year ++ "-" ++ pad2 month ++ "-" ++ pad2 day)
      else none
    | none => none

/-- The heading loop of `extractVisibleDateISO`: first heading that
parses wins. -/
def headingsDateISO (year : Nat) (headings : List String) : Option String :=
  (((headings.map normStr).filter fun s => !(s = "")).filterMap
    (headingDateISO year)).head?

/-- `day_mismatch = !!(visibleISO && startISO && visibleISO !== startISO)`. -/
def dayMismatch (startISO : String) (vis : Option String) : Bool :=
  match vis with
  | none => false
  | some v => !(v = "") && !(startISO = "") && !(v = startISO)

/-! ## Strategy coordinator

The `capture-schedule-text` handler's fallback chain: the day-scoped DOM
attempt (`parse_mode = 'day-section'`), then the global DOM re-parse
(`'global-dom'`), then the plain-text parse (`'text'`); each later
strategy runs only when the previous produced zero entries. -/

def strategyCoordinator (dayScoped globalDom textParsed : List ScheduleEntry) :
    String × List ScheduleEntry :=
  if dayScoped.isEmpty then
    if globalDom.isEmpty then ("text", textParsed)
    else ("global-dom", globalDom)
  else ("day-section", dayScoped)

/-! ## Lemmas about the deduplicator -/

theorem dedupGo_sublist (seen : List String) (l : List ScheduleEntry) :
    (dedupGo seen l).Sublist l := by
  induction l generalizing seen with
  | nil => simp [dedupGo]
  | cons e rest ih =>
    rw [dedupGo]
    split
    · exact (ih seen).cons e
    · exact (ih _).cons₂ e

theorem mem_of_mem_dedupGo {seen : List String} {l : List ScheduleEntry}
    {e : ScheduleEntry} (h : e ∈ dedupGo seen l) : e ∈ l :=
  (dedupGo_sublist seen l).subset h

theorem mem_of_mem_dedupEntries {l : List ScheduleEntry} {e : ScheduleEntry}
    (h : e ∈ dedupEntries l) : e ∈ l :=
  mem_of_mem_dedupGo h

/-- A survivor of the dedup pass is the first occurrence of its key. -/
theorem dedupGo_first_occurrence (seen : List String) (l : List ScheduleEntry)
    (e : ScheduleEntry) (h : e ∈ dedupGo seen l) :
    dedupKey e ∉ seen ∧ l.find? (fun x => dedupKey x == dedupKey e) = some e := by
  induction l generalizing seen with
  | nil => simp [dedupGo] at h
  | cons x rest ih =>
    rw [dedupGo] at h
    by_cases hks : seen.contains (dedupKey x)
    · rw [if_pos hks] at h
      obtain ⟨hns, hfind⟩ := ih seen h
      have hne : ¬ dedupKey x = dedupKey e := by
        intro hxe
        exact hns (hxe ▸ (List.mem_of_elem_eq_true hks))
      refine ⟨hns, ?_⟩
      rw [List.find?_cons_of_neg _ (by simpa using hne)]
      exact hfind
    · rw [if_neg hks] at h
      rcases List.mem_cons.mp h with rfl | htail
      · refine ⟨fun hmem => hks (List.elem_eq_true_of_mem hmem), ?_⟩
        rw [List.find?_cons_of_pos _ (by simp)]
      · obtain ⟨hns, hfind⟩ := ih (dedupKey x :: seen) htail
        have hne : ¬ dedupKey x = dedupKey e := by
          intro hxe
          exact hns (hxe ▸ List.mem_cons_self _ _)
        refine ⟨fun hmem => hns (List.mem_cons_of_mem _ hmem), ?_⟩
        rw [List.find?_cons_of_neg _ (by simpa using hne)]
        exact hfind

/-- Every key of the input is represented in the dedup output. -/
theorem dedupGo_key_covered (seen : List String) (l : List ScheduleEntry)
    (e : ScheduleEntry) (he : e ∈ l) (hns : dedupKey e ∉ seen) :
    ∃ e2 ∈ dedupGo seen l, dedupKey e2 = dedupKey e := by
  induction l generalizing seen with
  | nil => simp at he
  | cons x rest ih =>
    rw [dedupGo]
    rcases List.mem_cons.mp he with rfl | htail
    · rw [if_neg (fun hks => hns (List.mem_of_elem_eq_true hks))]
      exact ⟨e, List.mem_cons_self _ _, rfl⟩
    · by_cases hks : seen.contains (dedupKey x)
      · rw [if_pos hks]
        exact ih seen htail hns
      · rw [if_neg hks]
        by_cases hxe : dedupKey e = dedupKey x
        · exact ⟨x, List.mem_cons_self _ _, hxe.symm⟩
        · obtain ⟨e2, hmem, hkey⟩ := ih (dedupKey x :: seen) htail (by
            intro hcon
            rcases List.mem_cons.mp hcon with h1 | h2
            · exact hxe h1
            · exact hns h2)
          exact ⟨e2, List.mem_cons_of_mem _ hmem, hkey⟩

/-- The dedup output has pairwise-distinct keys (and avoids `seen`). -/
theorem dedupGo_keys_nodup (seen : List String) (l : List ScheduleEntry) :
    (dedupGo seen l).Pairwise (fun a b => dedupKey a ≠ dedupKey b) ∧
      ∀ e ∈ dedupGo seen l, dedupKey e ∉ seen := by
  induction l generalizing seen with
  | nil => simp [dedupGo]
  | cons x rest ih =>
    rw [dedupGo]
    by_cases hks : seen.contains (dedupKey x)
    · rw [if_pos hks]
      exact ih seen
    · rw [if_neg hks]
      obtain ⟨hpw, havoid⟩ := ih (dedupKey x :: seen)
      constructor
      · refine List.Pairwise.cons ?_ hpw
        intro b hb hxb
        exact havoid b hb (hxb ▸ List.mem_cons_self _ _)
      · intro e he
        rcases List.mem_cons.mp he with rfl | htail
        · exact fun hmem => hks (List.elem_eq_true_of_mem hmem)
        · exact fun hmem => havoid e htail (List.mem_cons_of_mem _ hmem)

/-! ## Injectivity of the composite key on separator-free fields -/

/-- A string free of the `|` key separator.  Both strategies stamp every
entry with a fixed `|`-free date and a regex-shaped (`|`-free) time, so
their outputs always satisfy this. -/
def barFree (s : String) : Prop := '|' ∉ s.data

instance (s : String) : Decidable (barFree s) := by
  unfold barFree
  infer_instance

theorem append_bar_inj (d1 : List Char) :
    ∀ (d2 s1 s2 : List Char), '|' ∉ d1 → '|' ∉ d2 →
      d1 ++ '|' :: s1 = d2 ++ '|' :: s2 → d1 = d2 ∧ s1 = s2 := by
  induction d1 with
  | nil =>
    intro d2 s1 s2 _ hd2 heq
    cases d2 with
    | nil => simpa using heq
    | cons c d2' =>
      simp only [List.nil_append, List.cons_append, List.cons.injEq] at heq
      exact absurd (heq.1 ▸ List.mem_cons_self '|' d2') hd2
  | cons c d1' ih =>
    intro d2 s1 s2 hd1 hd2 heq
    cases d2 with
    | nil =>
      simp only [List.cons_append, List.nil_append, List.cons.injEq] at heq
      exact absurd (heq.1 ▸ List.mem_cons_self '|' d1') hd1
    | cons c2 d2' =>
      simp only [List.cons_append, List.cons.injEq] at heq
      obtain ⟨e1, e2⟩ := ih d2' s1 s2 (fun h => hd1 (List.mem_cons_of_mem _ h))
        (fun h => hd2 (List.mem_cons_of_mem _ h)) heq.2
      exact ⟨by rw [heq.1, e1], e2⟩

theorem string_data_append (s t : String) : (s ++ t).data = s.data ++ t.data := by
  cases s
  cases t
  rfl

theorem dedupKey_inj {a b : ScheduleEntry}
    (ha : barFree a.date ∧ barFree a.time) (hb : barFree b.date ∧ barFree b.time) :
    dedupKey a = dedupKey b ↔
      a.date = b.date ∧ a.time = b.time ∧ a.class_name = b.class_name := by
  constructor
  · intro h
    have hdata : a.date.data ++ '|' :: (a.time.data ++ '|' :: a.class_name.data) =
        b.date.data ++ '|' :: (b.time.data ++ '|' :: b.class_name.data) := by
      have := congrArg String.data h
      simpa [dedupKey, string_data_append] using this
    obtain ⟨hd, hrest⟩ := append_bar_inj _ _ _ _ ha.1 hb.1 hdata
    obtain ⟨ht, hn⟩ := append_bar_inj _ _ _ _ ha.2 hb.2 hrest
    exact ⟨String.ext hd, String.ext ht, String.ext hn⟩
  · rintro ⟨h1, h2, h3⟩
    simp [dedupKey, h1, h2, h3]

/-!  ## Claim C7: the deduplicator -/

/-- **C7.**  Deduplication is a stable first-occurrence-wins filter
keyed by `(date, time, class_name)`: the output is a sublist of the
input (original relative order), each survivor is the first entry
carrying its key, every key of the input survives exactly once, and —
for entries whose date and time are free of the `|` separator, as both
strategies guarantee — the composite key coincides with the
`(date, time, class_name)` triple. -/
theorem C7_dedup_first_occurrence_filter (l : List ScheduleEntry)
    (hl : ∀ e ∈ l, barFree e.date ∧ barFree e.time) :
    (dedupEntries l).Sublist l
    ∧ (∀ e ∈ dedupEntries l, l.find? (fun x => dedupKey x == dedupKey e) = some e)
    ∧ (∀ e ∈ l, ∃ e2 ∈ dedupEntries l, dedupKey e2 = dedupKey e)
    ∧ (dedupEntries l).Pairwise (fun a b => dedupKey a ≠ dedupKey b)
    ∧ (∀ a ∈ l, ∀ b ∈ l,
        (dedupKey a = dedupKey b ↔
          a.date = b.date ∧ a.time = b.time ∧ a.class_name = b.class_name)) := by
  refine ⟨dedupGo_sublist [] l, ?_, ?_, (dedupGo_keys_nodup [] l).1, ?_⟩
  · intro e he
    exact (dedupGo_first_occurrence [] l e he).2
  · intro e he
    exact dedupGo_key_covered [] l e he (by simp)
  · intro a ha b hb
    exact dedupKey_inj (hl a ha) (hl b hb)

/-- Concrete instance for C7: three rows sharing a key collapse to the
first one seen, in order. -/
def c7SampleA : ScheduleEntry :=
  { date := "2025-09-03", time := "9:00 AM", class_name := "Mat Pilates",
    instructor := "Jane", status := .open_, open_spots := some 3,
    price := none, price_text := none }

def c7SampleB : ScheduleEntry :=
  { date := "2025-09-03", time := "9:00 AM", class_name := "Mat Pilates",
    instructor := "", status := .unknown, open_spots := none,
    price := none, price_text := none }

def c7SampleC : ScheduleEntry :=
  { date := "2025-09-03", time := "6:00 PM", class_name := "Barre",
    instructor := "", status := .full, open_spots := some 0,
    price := none, price_text := none }

/-- Witness for C7 at a concrete duplicate-bearing input. -/
theorem C7_dedup_first_occurrence_filter_witness :
    (∀ e ∈ [c7SampleA, c7SampleC, c7SampleB], barFree e.date ∧ barFree e.time)
    ∧ ((dedupEntries [c7SampleA, c7SampleC, c7SampleB]).Sublist
        [c7SampleA, c7SampleC, c7SampleB]
      ∧ (∀ e ∈ dedupEntries [c7SampleA, c7SampleC, c7SampleB],
          ([c7SampleA, c7SampleC, c7SampleB].find?
            (fun x => dedupKey x == dedupKey e)) = some e)
      ∧ (∀ e ∈ [c7SampleA, c7SampleC, c7SampleB],
          ∃ e2 ∈ dedupEntries [c7SampleA, c7SampleC, c7SampleB],
            dedupKey e2 = dedupKey e)
      ∧ (dedupEntries [c7SampleA, c7SampleC, c7SampleB]).Pairwise
          (fun a b => dedupKey a ≠ dedupKey b)
      ∧ (∀ a ∈ [c7SampleA, c7SampleC, c7SampleB],
          ∀ b ∈ [c7SampleA, c7SampleC, c7SampleB],
          (dedupKey a = dedupKey b ↔
            a.date = b.date ∧ a.time = b.time ∧ a.class_name = b.class_name))) :=
  ⟨by decide, C7_dedup_first_occurrence_filter _ (by decide)⟩

/-! ## Claim C1: strategy coordinator ordering -/

/-- **C1.**  The coordinator advances `day-section → global-dom → text`
only on an empty result: in particular an empty day-scoped result with a
non-empty global DOM result records mode `"global-dom"` (the strategy
the specification names `dom-global`), and the later modes are reachable
only when every earlier strategy produced zero entries. -/
theorem C1_strategy_fallback_order (ds gd tp : List ScheduleEntry) :
    (ds = [] → gd ≠ [] → strategyCoordinator ds gd tp = ("global-dom", gd))
    ∧ ((strategyCoordinator ds gd tp).1 = "global-dom" → ds = [] ∧ gd ≠ [])
    ∧ ((strategyCoordinator ds gd tp).1 = "text" →
        ds = [] ∧ gd = [] ∧ (strategyCoordinator ds gd tp).2 = tp)
    ∧ ((strategyCoordinator ds gd tp).1 = "day-section" →
        ds ≠ [] ∧ (strategyCoordinator ds gd tp).2 = ds) := by
  unfold strategyCoordinator
  rcases ds with _ | ⟨d, ds'⟩ <;> rcases gd with _ | ⟨g, gd'⟩ <;>
    simp [List.isEmpty]

/-- Witness for C1 at a concrete input. -/
theorem C1_strategy_fallback_order_witness :
    strategyCoordinator [] [c7SampleA] [] = ("global-dom", [c7SampleA]) :=
  (C1_strategy_fallback_order [] [c7SampleA] []).1 rfl (by simp)

/-! ## Claim C2: no text and no rows is a valid empty text-mode result -/

/-- **C2.**  With no visible text and no DOM rows, the plain-text parse
returns (does not throw) the empty list, the DOM strategy returns no
entries, and the coordinator reports mode `"text"` with an empty entry
list. -/
theorem C2_empty_input_text_mode (iso : String) :
    parseFromPlainText "" iso = some []
    ∧ domParse iso [] = []
    ∧ strategyCoordinator (domParse iso []) (domParse iso []) [] = ("text", []) :=
  ⟨rfl, rfl, rfl⟩

/-! ## The shape of normalized time fields -/

/-- `s` is exactly a match of the hour-minute group `[0-1]?\d:[0-5]\d`. -/
def hmFullB (s : String) : Bool :=
  match hmParse s.data with
  | some (_, rest) => rest.isEmpty
  | none => false

/-- A normalized time: an hour-minute token, one space, uppercase `AM`
or `PM`. -/
def TimeShape (s : String) : Prop :=
  ∃ hm mer, hmFullB hm = true ∧ (mer = "AM" ∨ mer = "PM") ∧ s = hm ++ " " ++ mer

theorem hm5_self {l g rest} (h : hm5 l = some (g, rest)) : hm5 g = some (g, []) := by
  unfold hm5 at h
  split at h
  · split at h
    · rename_i hcond
      simp only [Option.some.injEq, Prod.mk.injEq] at h
      obtain ⟨hg, _⟩ := h
      subst hg
      simp [hm5, hcond]
    · exact absurd h (by simp)
  · exact absurd h (by simp)

theorem hm4_self {l g rest} (h : hm4 l = some (g, rest)) :
    hm4 g = some (g, []) ∧ hm5 g = none := by
  unfold hm4 at h
  split at h
  · split at h
    · rename_i hcond
      simp only [Option.some.injEq, Prod.mk.injEq] at h
      obtain ⟨hg, _⟩ := h
      subst hg
      exact ⟨by simp [hm4, hcond], rfl⟩
    · exact absurd h (by simp)
  · exact absurd h (by simp)

theorem hmParse_self {l g rest} (h : hmParse l = some (g, rest)) :
    hmFullB (String.mk g) = true := by
  unfold hmParse at h
  split at h
  · rename_i r heq
    rw [h] at heq
    have h5 := hm5_self heq
    unfold hmFullB hmParse
    simp [h5]
  · obtain ⟨h4, h5⟩ := hm4_self h
    unfold hmFullB hmParse
    simp [h4, h5]

theorem meridiem_shape {p m : Char} (hp : isAPC p = true) (hm : isMC m = true) :
    strUpper (String.mk [p, m]) = "AM" ∨ strUpper (String.mk [p, m]) = "PM" := by
  simp only [isAPC, Bool.or_eq_true, decide_eq_true_eq] at hp
  simp only [isMC, Bool.or_eq_true, decide_eq_true_eq] at hm
  rcases hp with ((rfl | rfl) | rfl) | rfl <;> rcases hm with rfl | rfl <;>
    first
    | exact Or.inl (by decide)
    | exact Or.inr (by decide)

theorem timeAnchoredMatch_shape {l : List Char} {g1 g2 : String}
    (h : timeAnchoredMatch l = some (g1, g2)) :
    TimeShape (g1 ++ " " ++ strUpper g2) := by
  unfold timeAnchoredMatch at h
  split at h
  · exact absurd h (by simp)
  · rename_i g rest heq
    split at h
    · rename_i p m hdrop
      split at h
      · rename_i hcond
        simp only [Option.some.injEq, Prod.mk.injEq] at h
        obtain ⟨h1, h2⟩ := h
        subst h1
        subst h2
        simp only [Bool.and_eq_true] at hcond
        exact ⟨String.mk g, strUpper (String.mk [p, m]), hmParse_self heq,
          meridiem_shape hcond.1 hcond.2, rfl⟩
      · exact absurd h (by simp)
    · exact absurd h (by simp)

theorem timeAt_shape {l : List Char} {g1 g2 : String}
    (h : timeAt l = some (g1, g2)) : TimeShape (g1 ++ " " ++ strUpper g2) := by
  unfold timeAt at h
  split at h
  · exact absurd h (by simp)
  · rename_i g rest heq
    split at h
    · rename_i p m rest3 hdrop
      split at h
      · rename_i hcond
        simp only [Option.some.injEq, Prod.mk.injEq] at h
        obtain ⟨h1, h2⟩ := h
        subst h1
        subst h2
        simp only [Bool.and_eq_true] at hcond
        exact ⟨String.mk g, strUpper (String.mk [p, m]), hmParse_self heq,
          meridiem_shape hcond.1.1 hcond.1.2, rfl⟩
      · exact absurd h (by simp)
    · exact absurd h (by simp)

theorem timeSearchAux_shape {g1 g2 : String} :
    ∀ (b : Bool) (l : List Char), timeSearchAux b l = some (g1, g2) →
      TimeShape (g1 ++ " " ++ strUpper g2) := by
  intro b l
  induction l generalizing b with
  | nil => intro h; exact absurd h (by simp [timeSearchAux])
  | cons c rest ih =>
    intro h
    rw [timeSearchAux] at h
    split at h
    · rename_i r heq
      split at heq
      · exact absurd heq (by simp)
      · rw [h] at heq
        exact timeAt_shape heq
    · exact ih _ h

theorem timeSearch_shape {l : List Char} {g1 g2 : String}
    (h : timeSearch l = some (g1, g2)) : TimeShape (g1 ++ " " ++ strUpper g2) :=
  timeSearchAux_shape false l h

/-! ## The status/spots invariant of the plain-text scan -/

/-- The status/spot-count consistency invariant of a (partial or
finished) entry: `unknown` has no count, `open` has no count or a
positive one, and `full`/`waitlist` always carry an explicit `0` in the
text strategy. -/
def statusSpotsInv (st : Status) (sp : Option Nat) : Prop :=
  (st = .unknown → sp = none)
  ∧ (st = .open_ → sp = none ∨ ∃ n, sp = some n ∧ 0 < n)
  ∧ ((st = .full ∨ st = .waitlist) → sp = some 0)

def CurInv (c : Cur) : Prop := TimeShape c.time ∧ statusSpotsInv c.status c.open_spots

def EntryInvT (iso : String) (e : ScheduleEntry) : Prop :=
  e.date = iso ∧ TimeShape e.time ∧ statusSpotsInv e.status e.open_spots

theorem applyPrice_fields (t : String) (c : Cur) :
    (applyPrice t c).time = c.time ∧ (applyPrice t c).status = c.status
    ∧ (applyPrice t c).open_spots = c.open_spots := by
  unfold applyPrice
  split <;> exact ⟨rfl, rfl, rfl⟩

theorem applyRuleChain_time (t : String) (c : Cur) :
    (applyRuleChain t c).time = c.time := by
  unfold applyRuleChain
  split
  · rfl
  split
  · rfl
  split
  · rfl
  split
  · rfl
  split
  · rfl
  split
  · rfl
  split
  · split <;> rfl
  split <;> rfl

theorem applyRuleChain_inv (t : String) (c : Cur)
    (h : statusSpotsInv c.status c.open_spots) :
    statusSpotsInv (applyRuleChain t c).status (applyRuleChain t c).open_spots := by
  unfold applyRuleChain
  split
  · exact h
  split
  · exact h
  split
  · exact h
  split
  · exact ⟨by simp, by simp, fun _ => rfl⟩
  split
  · exact ⟨by simp, by simp, fun _ => rfl⟩
  split
  · rename_i n _
    by_cases hn : 0 < n
    · rw [if_pos hn]
      exact ⟨by simp, fun _ => Or.inr ⟨n, rfl, hn⟩, by simp⟩
    · rw [if_neg hn]
      exact ⟨by simp, by simp, fun _ => by simp [Nat.eq_zero_of_not_pos hn]⟩
  split
  · split
    · rename_i hnone
      exact ⟨by simp, fun _ => Or.inl hnone, by simp⟩
    · exact h
  split
  · exact h
  · exact h

theorem pushCur_inv (iso : String) (rows : List ScheduleEntry) (cur? : Option Cur)
    (hr : ∀ e ∈ rows, EntryInvT iso e) (hc : ∀ c, cur? = some c → CurInv c) :
    ∀ e ∈ pushCur iso rows cur?, EntryInvT iso e := by
  intro e he
  cases cur? with
  | none => exact hr e he
  | some c =>
    simp only [pushCur] at he
    by_cases hcond : c.time ≠ "" ∧ (c.class_name ≠ "" ∨ c.status ≠ Status.unknown)
    · rw [if_pos hcond] at he
      rcases List.mem_append.mp he with hmem | hmem
      · exact hr e hmem
      · obtain ⟨hct, hcs⟩ := hc c rfl
        rcases List.mem_singleton.mp hmem with rfl
        exact ⟨rfl, hct, hcs⟩
    · rw [if_neg hcond] at he
      exact hr e he

theorem stepLine_inv (iso : String) (rows : List ScheduleEntry) (cur : Option Cur)
    (raw : String)
    (hr : ∀ e ∈ rows, EntryInvT iso e) (hc : ∀ c, cur = some c → CurInv c) :
    (∀ e ∈ (stepLine iso (rows, cur) raw).1, EntryInvT iso e)
    ∧ (∀ c, (stepLine iso (rows, cur) raw).2 = some c → CurInv c) := by
  cases heq : timeAnchoredMatch (normStr raw).data with
  | some g =>
    obtain ⟨g1, g2⟩ := g
    simp only [stepLine, heq]
    constructor
    · exact pushCur_inv iso rows cur hr hc
    · intro c hceq
      simp only [Option.some.injEq] at hceq
      subst hceq
      exact ⟨timeAnchoredMatch_shape heq, by simp [initCur, statusSpotsInv]⟩
  | none =>
    cases cur with
    | none => simpa only [stepLine, heq] using ⟨hr, hc⟩
    | some cur0 =>
      simp only [stepLine, heq]
      constructor
      · exact hr
      · intro c hceq
        simp only [Option.some.injEq] at hceq
        subst hceq
        obtain ⟨hct, hcs⟩ := hc cur0 rfl
        obtain ⟨hpt, hps, hpo⟩ := applyPrice_fields (normStr raw) cur0
        constructor
        · rw [applyRuleChain_time, hpt]
          exact hct
        · exact applyRuleChain_inv _ _ (by rw [hps, hpo]; exact hcs)

theorem scanLines_inv (iso : String) :
    ∀ (lines : List String) (rows : List ScheduleEntry) (cur : Option Cur),
      (∀ e ∈ rows, EntryInvT iso e) → (∀ c, cur = some c → CurInv c) →
      ∀ e ∈ scanLines iso rows cur lines, EntryInvT iso e := by
  intro lines
  induction lines with
  | nil =>
    intro rows cur hr hc
    exact pushCur_inv iso rows cur hr hc
  | cons l rest ih =>
    intro rows cur hr hc
    rw [scanLines]
    obtain ⟨hr2, hc2⟩ := stepLine_inv iso rows cur l hr hc
    exact ih _ _ hr2 hc2

/-- Every entry of a successful plain-text parse satisfies the full
entry invariant. -/
theorem parseFromPlainText_inv {text iso : String} {l : List ScheduleEntry}
    (h : parseFromPlainText text iso = some l) :
    ∀ e ∈ l, EntryInvT iso e := by
  unfold parseFromPlainText at h
  split at h
  · simp only [Option.some.injEq] at h
    subst h
    simp
  · split at h
    · exact absurd h (by simp)
    · simp only [Option.some.injEq] at h
      subst h
      intro e he
      exact scanLines_inv iso _ [] none (by simp) (by simp)
        e (mem_of_mem_dedupEntries he)

/-! ## Invariants of the DOM status resolution -/

/-- The DOM status resolver: `unknown` carries no count, `open` carries
no count or a positive badge count, and `full`/`waitlist` carry `0`
unless the spots badge supplied an explicit positive count. -/
theorem domStatusSpots_inv (row : DomRow) (t btnText : String) :
    ((domStatusSpots row t btnText).1 = .unknown →
      (domStatusSpots row t btnText).2 = none)
    ∧ ((domStatusSpots row t btnText).1 = .open_ →
      (domStatusSpots row t btnText).2 = none
      ∨ ∃ n, (domStatusSpots row t btnText).2 = some n ∧ 0 < n)
    ∧ (((domStatusSpots row t btnText).1 = .full
        ∨ (domStatusSpots row t btnText).1 = .waitlist) →
      (domStatusSpots row t btnText).2 = some 0
      ∨ ∃ n, spotsLabelNat row = some n ∧ 0 < n
          ∧ (domStatusSpots row t btnText).2 = some n) := by
  unfold domStatusSpots
  cases hsp : spotsLabelNat row with
  | none =>
    simp only
    split
    · exact ⟨by simp, by simp, fun _ => Or.inl rfl⟩
    split
    · exact ⟨by simp, by simp, fun _ => Or.inl rfl⟩
    split
    · exact ⟨by simp, fun _ => Or.inl rfl, by simp⟩
    · exact ⟨fun _ => rfl, by simp, by simp⟩
  | some n =>
    by_cases hn : 0 < n
    · simp only [if_pos hn]
      split
    -- waitlist with an explicit positive badge count: count survives
      · exact ⟨by simp, by simp, fun _ => Or.inr ⟨n, rfl, hn, by simp⟩⟩
      split
      · exact ⟨by simp, by simp, fun _ => Or.inr ⟨n, rfl, hn, by simp⟩⟩
      split
      · rename_i hbook
        simp at hbook
      · exact ⟨by simp, fun _ => Or.inr ⟨n, rfl, hn⟩, by simp⟩
    · have hn0 : n = 0 := Nat.eq_zero_of_not_pos hn
      subst hn0
      simp only [if_neg hn]
      split
      · exact ⟨by simp, by simp, fun _ => Or.inl (by simp)⟩
      split
      · exact ⟨by simp, by simp, fun _ => Or.inl (by simp)⟩
      split
      · rename_i hbook
        simp at hbook
      · exact ⟨by simp, by simp, fun _ => Or.inl rfl⟩

/-- Every entry a DOM row parses to satisfies the DOM entry invariant. -/
theorem domParseRow_inv {iso : String} {row : DomRow} {e : ScheduleEntry}
    (h : domParseRow iso row = some e) :
    e.date = iso ∧ TimeShape e.time
    ∧ (e.status = .unknown → e.open_spots = none)
    ∧ (e.status = .open_ → e.open_spots = none ∨ ∃ n, e.open_spots = some n ∧ 0 < n)
    ∧ ((e.status = .full ∨ e.status = .waitlist) →
        e.open_spots = some 0
        ∨ ∃ n, spotsLabelNat row = some n ∧ 0 < n ∧ e.open_spots = some n) := by
  simp only [domParseRow] at h
  cases heq : timeSearch (jsTrim row.text).data with
  | none => rw [heq] at h; exact absurd h (by simp)
  | some g =>
    obtain ⟨g1, g2⟩ := g
    rw [heq] at h
    simp only [Option.some.injEq] at h
    subst h
    obtain ⟨h1, h2, h3⟩ :=
      domStatusSpots_inv row (jsTrim row.text) (((rowBadges row).find? btnWordB).getD "")
    exact ⟨rfl, timeSearch_shape heq, h1, h2, h3⟩

/-- Membership in the DOM strategy output comes from some input row. -/
theorem domParse_mem {iso : String} {rows : List DomRow} {e : ScheduleEntry}
    (h : e ∈ domParse iso rows) : ∃ row ∈ rows, domParseRow iso row = some e := by
  unfold domParse at h
  obtain ⟨row, hmem, heq⟩ := List.mem_filterMap.mp (mem_of_mem_dedupEntries h)
  exact ⟨row, (List.mem_filter.mp hmem).1, heq⟩

/-! ## Claim C3: status/spots consistency in both strategies -/

/-- **C3.**  Every emitted entry satisfies the status/spots invariant:
`full`/`waitlist` carries `open_spots = 0` — in the DOM strategy
possibly an explicit larger badge count captured first — and `unknown`
carries `open_spots = null`. -/
theorem C3_status_spots_consistency :
    (∀ (text iso : String) (l : List ScheduleEntry),
       parseFromPlainText text iso = some l → ∀ e ∈ l,
         ((e.status = .full ∨ e.status = .waitlist) → e.open_spots = some 0)
         ∧ (e.status = .unknown → e.open_spots = none))
    ∧ (∀ (iso : String) (rows : List DomRow) (e : ScheduleEntry),
       e ∈ domParse iso rows →
         ((e.status = .full ∨ e.status = .waitlist) →
           e.open_spots = some 0
           ∨ ∃ row ∈ rows, domParseRow iso row = some e
               ∧ ∃ n, spotsLabelNat row = some n ∧ 0 < n ∧ e.open_spots = some n)
         ∧ (e.status = .unknown → e.open_spots = none)) := by
  constructor
  · intro text iso l h e he
    obtain ⟨_, _, hinv⟩ := parseFromPlainText_inv h e he
    exact ⟨hinv.2.2, hinv.1⟩
  · intro iso rows e he
    obtain ⟨row, hrow, heq⟩ := domParse_mem he
    obtain ⟨_, _, h1, _, h3⟩ := domParseRow_inv heq
    refine ⟨fun hst => ?_, h1⟩
    rcases h3 hst with h0 | ⟨n, hn1, hn2, hn3⟩
    · exact Or.inl h0
    · exact Or.inr ⟨row, hrow, heq, n, hn1, hn2, hn3⟩

def waitlistSample : ScheduleEntry :=
  { date := "2025-09-03", time := "6:00 PM", class_name := "Reformer Flow",
    instructor := "", status := .waitlist, open_spots := some 0,
    price := none, price_text := none }

def soldOutRow : DomRow := ⟨"6:00 PM\nReformer", none, ["5 SPOTS", "Sold Out"]⟩

def soldOutRowEntry : ScheduleEntry :=
  { date := "2025-09-03", time := "6:00 PM", class_name := "Reformer",
    instructor := "", status := .full, open_spots := some 5,
    price := none, price_text := none }

/-- Witness for C3: a waitlist entry of the text strategy has 0 spots; a
sold-out DOM row whose badge captured 5 spots keeps the explicit count. -/
theorem C3_status_spots_consistency_witness :
    (parseFromPlainText "6:00 PM\nReformer Flow\nWaitlist" "2025-09-03"
      = some [waitlistSample]
     ∧ waitlistSample.open_spots = some 0)
    ∧ (soldOutRowEntry ∈ domParse "2025-09-03" [soldOutRow]
       ∧ (soldOutRowEntry.open_spots = some 0
          ∨ ∃ row ∈ [soldOutRow], domParseRow "2025-09-03" row = some soldOutRowEntry
              ∧ ∃ n, spotsLabelNat row = some n ∧ 0 < n
                  ∧ soldOutRowEntry.open_spots = some n)) := by
  have hdom : soldOutRowEntry ∈ domParse "2025-09-03" [soldOutRow] := by
    rw [show domParse "2025-09-03" [soldOutRow] = [soldOutRowEntry] from rfl]
    exact List.mem_singleton.mpr rfl
  refine ⟨⟨rfl, ?_⟩, hdom, ?_⟩
  · exact (C3_status_spots_consistency.1 "6:00 PM\nReformer Flow\nWaitlist"
      "2025-09-03" [waitlistSample] rfl waitlistSample (List.mem_singleton.mpr rfl)).1
      (Or.inr rfl)
  · exact (C3_status_spots_consistency.2 "2025-09-03" [soldOutRow]
      soldOutRowEntry hdom).1 (Or.inl rfl)

/-! ## Claim C9: `open` is never paired with a zero count -/

/-- **C9.**  In both strategies an entry with status `open` has
`open_spots` null or strictly positive. -/
theorem C9_open_spots_never_zero :
    (∀ (text iso : String) (l : List ScheduleEntry),
       parseFromPlainText text iso = some l → ∀ e ∈ l, e.status = .open_ →
         e.open_spots = none ∨ ∃ n, e.open_spots = some n ∧ 0 < n)
    ∧ (∀ (iso : String) (rows : List DomRow) (e : ScheduleEntry),
       e ∈ domParse iso rows → e.status = .open_ →
         e.open_spots = none ∨ ∃ n, e.open_spots = some n ∧ 0 < n) := by
  constructor
  · intro text iso l h e he
    exact (parseFromPlainText_inv h e he).2.2.2.1
  · intro iso rows e he
    obtain ⟨row, hrow, heq⟩ := domParse_mem he
    exact (domParseRow_inv heq).2.2.2.1

def openSample : ScheduleEntry :=
  { date := "2025-09-03", time := "9:00 AM", class_name := "Mat Pilates",
    instructor := "Jane Doe", status := .open_, open_spots := some 3,
    price := none, price_text := none }

def bookRow : DomRow := ⟨"6:00 PM\nReformer", none, ["Book"]⟩

def bookRowEntry : ScheduleEntry :=
  { date := "2025-09-03", time := "6:00 PM", class_name := "Reformer",
    instructor := "", status := .open_, open_spots := none,
    price := none, price_text := none }

/-- Witness for C9: an open text entry with a positive badge count, and
an open DOM `Book` entry with a null count. -/
theorem C9_open_spots_never_zero_witness :
    (parseFromPlainText "9:00 AM\nMat Pilates\nw/ Jane Doe\n3 SPOTS\nBook"
      "2025-09-03" = some [openSample]
     ∧ (openSample.open_spots = none
        ∨ ∃ n, openSample.open_spots = some n ∧ 0 < n))
    ∧ (bookRowEntry ∈ domParse "2025-09-03" [bookRow]
       ∧ (bookRowEntry.open_spots = none
          ∨ ∃ n, bookRowEntry.open_spots = some n ∧ 0 < n)) := by
  have hdom : bookRowEntry ∈ domParse "2025-09-03" [bookRow] := by
    rw [show domParse "2025-09-03" [bookRow] = [bookRowEntry] from rfl]
    exact List.mem_singleton.mpr rfl
  refine ⟨⟨rfl, ?_⟩, hdom, ?_⟩
  · exact C9_open_spots_never_zero.1 "9:00 AM\nMat Pilates\nw/ Jane Doe\n3 SPOTS\nBook"
      "2025-09-03" [openSample] rfl openSample (List.mem_singleton.mpr rfl) rfl
  · exact C9_open_spots_never_zero.2 "2025-09-03" [bookRow] bookRowEntry hdom rfl

/-! ## Claim C10: date stamping and time normalization -/

/-- **C10.**  Every entry of the plain-text parser carries exactly the
ISO date passed in, and a time of the normalized shape
`<H:MM> <AM|PM>` (single space, uppercase meridiem). -/
theorem C10_date_stamp_time_normalized :
    ∀ (text iso : String) (l : List ScheduleEntry),
      parseFromPlainText text iso = some l → ∀ e ∈ l,
        e.date = iso ∧ TimeShape e.time := by
  intro text iso l h e he
  obtain ⟨h1, h2, _⟩ := parseFromPlainText_inv h e he
  exact ⟨h1, h2⟩

def lowerTimeSample : ScheduleEntry :=
  { date := "2025-09-03", time := "9:00 AM", class_name := "Yoga",
    instructor := "", status := .unknown, open_spots := none,
    price := none, price_text := none }

/-! ## Claim C4: the exact `Book` line

The spec says an exact standalone `Book` line with no captured count
yields status `open`.  The DOM strategy does behave that way, but in the
text parser the `IGNORE` boilerplate set contains the exact string
`'Book'` and its rule precedes the `/^Book$/i` rule, so the exact-cased
line is dropped before the status rule can fire — that rule is reachable
only for other casings such as `book`/`BOOK`.  The code contradicts its
own `/^Book$/i` rule (dead for its canonical input), the specification's
§4.3/§4.4 `book → open` rule and the DOM strategy's behaviour. -/

def bookLineUnknownEntry : ScheduleEntry :=
  { date := "2025-09-03", time := "9:00 AM", class_name := "Yoga",
    instructor := "", status := .unknown, open_spots := none,
    price := none, price_text := none }

def bookLineOpenEntry : ScheduleEntry :=
  { date := "2025-09-03", time := "9:00 AM", class_name := "Yoga",
    instructor := "", status := .open_, open_spots := none,
    price := none, price_text := none }

/-- **C4 (failing input).**  On `"9:00 AM\nYoga\nBook"` the text parser
leaves the entry `unknown` (the exact `Book` line is swallowed by the
`IGNORE` set), while the lowercase variant `book` — and the DOM strategy
on a `Book` button — produce `open` with a null count, exhibiting the
intended rule. -/
theorem C4_exact_book_line_divergence :
    parseFromPlainText "9:00 AM\nYoga\nBook" "2025-09-03"
      = some [bookLineUnknownEntry]
    ∧ bookLineUnknownEntry.status = .unknown
    ∧ bookLineUnknownEntry.status ≠ .open_
    ∧ parseFromPlainText "9:00 AM\nYoga\nbook" "2025-09-03"
      = some [bookLineOpenEntry]
    ∧ bookLineOpenEntry.status = .open_
    ∧ bookLineOpenEntry.open_spots = none
    ∧ domParse "2025-09-03" [⟨"9:00 AM\nYoga", none, ["Book"]⟩]
      = [{ date := "2025-09-03", time := "9:00 AM", class_name := "Yoga",
           instructor := "", status := .open_, open_spots := none,
           price := none, price_text := none }] :=
  ⟨rfl, rfl, by decide, rfl, rfl, rfl, rfl⟩

/-- Witness for C10: the source token `9:00am` (no space, lowercase) is
normalized to `9:00 AM` and stamped with the requested date. -/
theorem C10_date_stamp_time_normalized_witness :
    parseFromPlainText "9:00am\nYoga" "2025-09-03" = some [lowerTimeSample]
    ∧ lowerTimeSample.date = "2025-09-03" ∧ TimeShape lowerTimeSample.time :=
  ⟨rfl, C10_date_stamp_time_normalized "9:00am\nYoga" "2025-09-03"
    [lowerTimeSample] rfl lowerTimeSample (List.mem_singleton.mpr rfl)⟩

/-! ## Claim C8: the `day_mismatch` flag

The source computes
`day_mismatch = !!(visibleISO && startISO && visibleISO !== startISO)`:
besides a resolved visible date that differs, it also requires a
non-empty *requested* date, so with no requested date the flag stays
false even when a visible date was resolved — a counterexample to the
claimed "if and only if". -/

/-- **C8 (counterexample).**  A visible date is resolved (non-null,
non-empty) and differs from the (empty) requested date, yet
`day_mismatch` is `false`. -/
theorem C8_mismatch_iff_counterexample :
    dayMismatch "" (some "2025-09-03") = false
    ∧ (some "2025-09-03" ≠ (none : Option String))
    ∧ "2025-09-03" ≠ "" := by
  refine ⟨rfl, by simp, by decide⟩

/-- **C8 (amended).**  `day_mismatch` is true iff a visible date was
resolved (non-null, non-empty), a non-empty requested date was supplied,
and the two differ; when resolution returns null the flag is false; and
the output entries of both strategies are labeled with the requested
date regardless. -/
theorem C8_mismatch_flag_amended (startISO : String) (vis : Option String) :
    (dayMismatch startISO vis = true ↔
      ∃ v, vis = some v ∧ v ≠ "" ∧ startISO ≠ "" ∧ v ≠ startISO)
    ∧ (vis = none → dayMismatch startISO vis = false)
    ∧ (∀ (text : String) (l : List ScheduleEntry),
        parseFromPlainText text startISO = some l → ∀ e ∈ l, e.date = startISO)
    ∧ (∀ (rows : List DomRow) (e : ScheduleEntry),
        e ∈ domParse startISO rows → e.date = startISO) := by
  refine ⟨?_, ?_, ?_, ?_⟩
  · constructor
    · intro h
      cases vis with
      | none => simp [dayMismatch] at h
      | some v =>
        simp only [dayMismatch, Bool.and_eq_true, Bool.not_eq_true',
          decide_eq_false_iff_not] at h
        exact ⟨v, rfl, h.1.1, h.1.2, h.2⟩
    · rintro ⟨v, rfl, h1, h2, h3⟩
      simp [dayMismatch, h1, h2, h3]
  · rintro rfl
    rfl
  · intro text l h e he
    exact (parseFromPlainText_inv h e he).1
  · intro rows e he
    obtain ⟨row, _, heq⟩ := domParse_mem he
    exact (domParseRow_inv heq).1

/-- Witness for the amended C8 at concrete inputs: differing dates raise
the flag, a null visible date does not. -/
theorem C8_mismatch_flag_amended_witness :
    dayMismatch "2025-09-03" (some "2025-09-04") = true
    ∧ dayMismatch "2025-09-03" none = false :=
  ⟨(C8_mismatch_flag_amended "2025-09-03" (some "2025-09-04")).1.mpr
    ⟨"2025-09-04", rfl, by decide, by decide, by decide⟩,
   (C8_mismatch_flag_amended "2025-09-03" none).2.1 rfl⟩

/-! ## Claim C6: the year used for a year-less heading date

The heading resolver combines the heading's month/day with the year
computed by `yearFromISO(startISO)`: the requested date's year when its
4-digit prefix is *plausible* (1900–3000), else the current year in the
venue timezone.  The plausibility guard makes the claim as stated false:
a supplied requested date whose year lies outside the range is ignored
in favour of the current venue year. -/

/-- **C6 (counterexample).**  With requested date `1234-09-03` (year
supplied but implausible) and venue current year 2025, the heading
`WEDNESDAY, SEPTEMBER 3` resolves to `2025-09-03`: the year is not taken
from the requested date. -/
theorem C6_year_source_counterexample :
    yearFromISO "1234-09-03" 2025 = 2025
    ∧ (1234 : Nat) ≠ 2025
    ∧ headingDateISO (yearFromISO "1234-09-03" 2025) "WEDNESDAY, SEPTEMBER 3"
      = some "2025-09-03" :=
  ⟨rfl, by decide, rfl⟩

/-- **C6 (amended).**  A heading-resolved visible date is built from the
best-known year `yearFromISO startISO nowYearNY`: the requested date's
year when its 4-digit prefix lies in 1900–3000, else the current year in
the venue timezone (also when no requested date was supplied). -/
theorem C6_heading_year_amended (startISO : String) (nowYearNY : Nat)
    (h : String) (r : String)
    (hm : headingDateISO (yearFromISO startISO nowYearNY) h = some r) :
    (∃ mm dd, r = toString (yearFromISO startISO nowYearNY) ++ "-" ++ mm ++ "-" ++ dd)
    ∧ (∀ y, yearDigits startISO = some y → 1900 ≤ y → y ≤ 3000 →
        yearFromISO startISO nowYearNY = y)
    ∧ (∀ y, yearDigits startISO = some y → ¬(1900 ≤ y ∧ y ≤ 3000) →
        yearFromISO startISO nowYearNY = nowYearNY)
    ∧ (yearDigits startISO = none → yearFromISO startISO nowYearNY = nowYearNY) := by
  refine ⟨?_, ?_, ?_, ?_⟩
  · unfold headingDateISO at hm
    split at hm
    · exact absurd hm (by simp)
    · split at hm
      · split at hm
        · simp only [Option.some.injEq] at hm
          exact ⟨_, _, hm.symm⟩
        · exact absurd hm (by simp)
      · exact absurd hm (by simp)
  · intro y hy h1 h2
    simp only [yearFromISO, hy]
    simp [h1, h2]
  · intro y hy hrange
    simp only [yearFromISO, hy]
    have hcond : ¬ ((1900 ≤ y && y ≤ 3000) = true) := by
      simp only [Bool.and_eq_true, decide_eq_true_eq]
      rintro ⟨a, b⟩
      exact hrange ⟨a, b⟩
    rw [if_neg hcond]
  · intro hy
    simp only [yearFromISO, hy]

/-- Witness for the amended C6 at a concrete plausible requested date. -/
theorem C6_heading_year_amended_witness :
    (∃ mm dd, "2025-09-03" = toString (yearFromISO "2025-09-03" 1999)
      ++ "-" ++ mm ++ "-" ++ dd)
    ∧ (∀ y, yearDigits "2025-09-03" = some y → 1900 ≤ y → y ≤ 3000 →
        yearFromISO "2025-09-03" 1999 = y)
    ∧ (∀ y, yearDigits "2025-09-03" = some y → ¬(1900 ≤ y ∧ y ≤ 3000) →
        yearFromISO "2025-09-03" 1999 = 1999)
    ∧ (yearDigits "2025-09-03" = none → yearFromISO "2025-09-03" 1999 = 1999) :=
  C6_heading_year_amended "2025-09-03" 1999 "WEDNESDAY, SEPTEMBER 3" "2025-09-03" rfl

/-! ## Claim C5: section isolation of the plain-text segmenter -/

theorem findIdxJS_append_first {α : Type} (p : α → Bool) (pre : List α) (x : α)
    (rest : List α) (hpre : ∀ l ∈ pre, p l = false) (hx : p x = true) :
    findIdxJS p (pre ++ x :: rest) = some pre.length := by
  induction pre with
  | nil => simp [findIdxJS, hx]
  | cons a pre ih =>
    have ha : p a = false := hpre a (List.mem_cons_self _ _)
    simp only [List.cons_append, findIdxJS, ha, Bool.false_eq_true, if_false,
      List.length_cons]
    rw [List.append_eq, ih (fun l hl => hpre l (List.mem_cons_of_mem _ hl))]
    rfl

/-- **C5.**  For a text whose (trimmed, non-empty) lines decompose as
`pre ++ h1 :: mid ++ h2 :: post`, where no line of `pre` contains a
target-day header variant, `h1` contains one, no line of `mid` is a
generic day header and `h2` is one: the section starts at `h1`, ends
just before `h2`, equals `h1 :: mid`, and the parse result is computed
from `h1 :: mid` alone — zero entries can originate from the lines of
`post`, the second day's section. -/
theorem C5_section_isolation (text iso : String) (y m d : Nat)
    (pre mid post : List String) (h1 h2 : String)
    (hiso : isoToYMD iso = some (y, m, d))
    (htext : text ≠ "")
    (hlines : textLines text = pre ++ h1 :: (mid ++ h2 :: post))
    (hpre : ∀ l ∈ pre, lineHasVariant (headerVariantsOf y m d) l = false)
    (hh1 : lineHasVariant (headerVariantsOf y m d) h1 = true)
    (hmid : ∀ l ∈ mid, genericHeaderLine l = false)
    (hh2 : genericHeaderLine h2 = true) :
    sectionStartIdx (headerVariantsOf y m d) (textLines text) = pre.length
    ∧ sectionEndIdx (textLines text) pre.length = pre.length + 1 + mid.length
    ∧ sectionOf (headerVariantsOf y m d) (textLines text) = h1 :: mid
    ∧ parseFromPlainText text iso
      = some (dedupEntries (scanSection iso (h1 :: mid))) := by
  have hstart : sectionStartIdx (headerVariantsOf y m d) (textLines text)
      = pre.length := by
    unfold sectionStartIdx
    rw [hlines, findIdxJS_append_first _ pre h1 _ hpre hh1]
  have hdrop1 : (textLines text).drop (pre.length + 1) = mid ++ h2 :: post := by
    rw [hlines,
      show pre ++ h1 :: (mid ++ h2 :: post) = (pre ++ [h1]) ++ (mid ++ h2 :: post) by
        simp,
      show pre.length + 1 = (pre ++ [h1]).length by simp]
    exact List.drop_left _ _
  have hend : sectionEndIdx (textLines text) pre.length
      = pre.length + 1 + mid.length := by
    unfold sectionEndIdx
    rw [hdrop1, findIdxJS_append_first _ mid h2 post hmid hh2]
  have hdrop0 : (textLines text).drop pre.length = h1 :: (mid ++ h2 :: post) := by
    rw [hlines]
    exact List.drop_left _ _
  have hsec : sectionOf (headerVariantsOf y m d) (textLines text) = h1 :: mid := by
    simp only [sectionOf]
    rw [hstart, hend, hdrop0,
      show pre.length + 1 + mid.length - pre.length = mid.length + 1 by omega,
      List.take_succ_cons]
    rw [show mid ++ h2 :: post = mid ++ (h2 :: post) from rfl, List.take_left]
  refine ⟨hstart, hend, hsec, ?_⟩
  unfold parseFromPlainText
  rw [if_neg htext]
  simp only [hiso]
  rw [hsec]

def c5Text : String :=
  "WEDNESDAY, SEPTEMBER 3\n9:00 AM\nMat Pilates\n3 SPOTS\nTHURSDAY, SEPTEMBER 4\n6:00 PM\nYoga\nBook"

/-- Witness for C5: a two-day text parsed for the first day uses only
the first day's section. -/
theorem C5_section_isolation_witness :
    sectionStartIdx (headerVariantsOf 2025 9 3) (textLines c5Text) = 0
    ∧ sectionEndIdx (textLines c5Text) 0 = 4
    ∧ sectionOf (headerVariantsOf 2025 9 3) (textLines c5Text)
      = ["WEDNESDAY, SEPTEMBER 3", "9:00 AM", "Mat Pilates", "3 SPOTS"]
    ∧ parseFromPlainText c5Text "2025-09-03"
      = some (dedupEntries (scanSection "2025-09-03"
          ["WEDNESDAY, SEPTEMBER 3", "9:00 AM", "Mat Pilates", "3 SPOTS"])) :=
  C5_section_isolation c5Text "2025-09-03" 2025 9 3
    [] ["9:00 AM", "Mat Pilates", "3 SPOTS"] ["6:00 PM", "Yoga", "Book"]
    "WEDNESDAY, SEPTEMBER 3" "THURSDAY, SEPTEMBER 4"
    rfl (by decide) rfl (by simp) rfl (by decide) rfl

end Walla
